import Mathlib

/-!
Verification of the Leica total-station data extraction program
(`LeicaData.py`): a shallow embedding of its parsing, merging, ordering
and orchestration logic, with theorems checking the natural-language
specification against the code.

Conventions of the embedding:
- A CSV line is a `List String`; after parsing, a data row is a
  `List Field` where `Field := Option String` models a Python value that
  is either a string or `None`.
- Fallible Python code (indexing, `int()`, `strptime`) is modelled as
  `Except PyErr`; the error constructor records which Python exception
  class the operation raises.
- Python slices `l[a:b]`, `l[:b]`, `l[a:]` are `(l.drop a).take (b-a)`,
  `l.take b`, `l.drop a`; they never raise.
-/

namespace LeicaData

/-- Kinds of Python exceptions the modelled fragments can raise. -/
inductive PyErr where
  | indexError
  | valueError
  | typeError
deriving DecidableEq, Repr

/-- A parsed field value: a string, or Python `None` (modelled as `none`). -/
abbrev Field := Option String

/-- One data row after parsing. -/
abbrev Row := List Field

/-- Python `l[i]` for a non-negative index: raises `IndexError` out of range. -/
def getIdx {α : Type} (l : List α) (i : Nat) : Except PyErr α :=
  match l.get? i with
  | some v => .ok v
  | none => .error .indexError

/-- Python `l[-1]`: the last element, `IndexError` on an empty list. -/
def lastIdx {α : Type} (l : List α) : Except PyErr α :=
  match l.getLast? with
  | some v => .ok v
  | none => .error .indexError

/-- Split a character list at every occurrence of `sep`; the result always
has one more part than there are separators, like the Python `str.split`
with an explicit separator. -/
def splitChars (sep : Char) : List Char → List (List Char)
  | [] => [[]]
  | c :: rest =>
    if c == sep then [] :: splitChars sep rest
    else
      match splitChars sep rest with
      | [] => [[c]]
      | h :: t => (c :: h) :: t

/-- Python `s.split(sep)` for a single-character separator. -/
def pySplit (s : String) (sep : Char) : List String :=
  (splitChars sep s.data).map (fun cs => ⟨cs⟩)

/-- Read a non-empty all-digit character list as a decimal number. -/
def digitsToNat (cs : List Char) : Option Nat :=
  if cs ≠ [] ∧ cs.all Char.isDigit then
    some (cs.foldl (fun n c => n * 10 + (c.toNat - 48)) 0)
  else none

/-- Python `int(s)` on a plain decimal literal (an optional minus sign and
digits): raises `ValueError` on any other shape. -/
def pyInt (s : String) : Except PyErr Int :=
  match s.data with
  | '-' :: rest =>
    match digitsToNat rest with
    | some n => .ok (-(n : Int))
    | none => .error .valueError
  | cs =>
    match digitsToNat cs with
    | some n => .ok (n : Int)
    | none => .error .valueError

/-- Header data extracted by `processing_angle` from the first two CSV rows
(source lines 104-107): `station_info = [data[0][0], data[0][-1]]`,
`returns = int(data[0][1])` (total rounds), `rows = int(data[0][2]) + 1`
(note the `+ 1` from source line 106), and
`date_info` from `data[1][1]` and `data[1][2]`, each split on "=" taking part 1. -/
structure AngleHeader where
  station_info : List String
  returns : Int
  rows : Int
  date_info : List String
deriving DecidableEq, Repr

/-- Parse the two header rows of an angle-type export, in the evaluation
order of source lines 104-107. -/
def parseAngleHeader (data : List (List String)) : Except PyErr AngleHeader := do
  let row0 ← getIdx data 0
  let station ← getIdx row0 0
  let iheight ← lastIdx row0
  let returns ← pyInt (← getIdx row0 1)
  let rowsDeclared ← pyInt (← getIdx row0 2)
  let row1 ← getIdx data 1
  let dateStr ← getIdx (pySplit (← getIdx row1 1) '=') 1
  let timeStr ← getIdx (pySplit (← getIdx row1 2) '=') 1
  .ok ⟨[station, iheight], returns, rowsDeclared + 1, [dateStr, timeStr]⟩

/-- The data body of an angle-type export: drop the two header rows and the
trailing summary row (`data[2:-1]`, source line 108), then remove the
length-1 round-separator rows (source lines 110-111). -/
def angleBody (data : List (List String)) : List (List String) :=
  ((data.drop 2).dropLast).filter (fun x => x.length != 1)

/-- Total capacity of the prefixing loop of `processing_angle` (source lines
114-119): the nested loops touch exactly the indices `j < returns * rows`
(clamped at 0 when either bound is non-positive, since Python `range` over a
non-increasing span is empty). -/
def angleCapacity (hd : AngleHeader) : Nat :=
  hd.returns.toNat * hd.rows.toNat

/-- `processing_angle` (source lines 92-120), on the list of CSV rows read
from the file. The loop of lines 114-119 rewrites `data[j]` in place for
every `j < min (returns * rows) (len data)`, prefixing
`station_info + [str(i + 1)]` with `i = j / rows` and appending `date_info`;
the whole (filtered) body, including untouched rows past the capacity, is
returned. -/
def processing_angle (data : List (List String)) : Except PyErr (List (List String)) := do
  let hd ← parseAngleHeader data
  .ok ((angleBody data).mapIdx (fun j r =>
    if j < angleCapacity hd then
      hd.station_info ++ [toString (j / hd.rows.toNat + 1)] ++ r ++ hd.date_info
    else r))

/-- `processing_distance` (source lines 127-151): analogous header handling
(time is at `data[1][3]` here), body `data[2:-1]` with any row containing
the literal "Dist Start" or "Dist End" removed, every surviving row
prefixed with `[station, instrument_height]` and suffixed with
`[date, time]`. -/
def processing_distance (data : List (List String)) : Except PyErr (List (List String)) := do
  let row0 ← getIdx data 0
  let station ← getIdx row0 0
  let iheight ← lastIdx row0
  let row1 ← getIdx data 1
  let dateStr ← getIdx (pySplit (← getIdx row1 1) '=') 1
  let timeStr ← getIdx (pySplit (← getIdx row1 3) '=') 1
  let body := ((data.drop 2).dropLast).filter
    (fun r => !(r.contains "Dist Start") && !(r.contains "Dist End"))
  .ok (body.map (fun r => [station, iheight] ++ r ++ [dateStr, timeStr]))

/-- The join predicate of `merge_data` (source lines 171-172): a row matches
when its first four fields (`row[:4]`) equal the first four
fields of the angle row. -/
def keyMatch (key : Row) (r : Row) : Bool :=
  r.take 4 == key

/-- The row selection of `merge_data` source lines 171-172:
`next((row for row in rows if row[:4] == key), [None] * len(rows[0]))`.
Python evaluates the default argument `[None] * len(rows[0])` eagerly, so an
empty `rows` raises `IndexError` before any search happens; otherwise the
first positional match is returned, or the all-`None` placeholder of the
length of `rows[0]` when there is no match. -/
def selectRow (rows : List Row) (key : Row) : Except PyErr Row := do
  let first ← getIdx rows 0
  .ok ((rows.find? (keyMatch key)).getD (List.replicate first.length (none : Field)))

/-- One iteration of the `merge_data` loop (source lines 170-174): select the
zenith and distance rows for the key of the angle row and assemble
`station_info + [tzt_row[6]] + tpt_row[4:6] + tzt_row[4:6] + [txt_row[4]] + tpt_row[6:]`. -/
def mergeRow (tzt_data txt_data : List Row) (tpt_row : Row) : Except PyErr Row := do
  let tzt_row ← selectRow tzt_data (tpt_row.take 4)
  let txt_row ← selectRow txt_data (tpt_row.take 4)
  let z6 ← getIdx tzt_row 6
  let x4 ← getIdx txt_row 4
  .ok (tpt_row.take 4 ++ [z6] ++ (tpt_row.drop 4).take 2 ++
    (tzt_row.drop 4).take 2 ++ [x4] ++ tpt_row.drop 6)

/-- `merge_data` (source lines 154-175): one merged record per angle row, in
order; the first raised exception aborts the whole call. -/
def merge_data : List Row → List Row → List Row → Except PyErr (List Row)
  | [], _, _ => .ok []
  | tpt_row :: rest, tzt_data, txt_data => do
    let merged ← mergeRow tzt_data txt_data tpt_row
    let others ← merge_data rest tzt_data txt_data
    .ok (merged :: others)

/-- A station batch: the merged records of one station file triple. -/
abbrev Batch := List Row

/-- A field parsed as a decimal number; `datetime.strptime` raises
`ValueError` on non-numeric input. -/
def parseNatField (s : String) : Except PyErr Nat :=
  match digitsToNat s.data with
  | some n => .ok n
  | none => .error .valueError

/-- Model of the Python call parsing `str` with format "%Y-%m-%d %H:%M:%S": the string must
split into a date and a time part on the single space, the date into three
dash-separated numbers, the time into three colon-separated numbers, with the
calendar fields in range; the result is encoded as a single natural number
that is strictly monotone in the chronological order of the timestamp. -/
def parseTimestamp (str : String) : Except PyErr Nat :=
  match pySplit str ' ' with
  | [d, t] =>
    match pySplit d '-', pySplit t ':' with
    | [ys, mos, ds], [hs, mis, ss] => do
      let y ← parseNatField ys
      let mo ← parseNatField mos
      let da ← parseNatField ds
      let h ← parseNatField hs
      let mi ← parseNatField mis
      let sec ← parseNatField ss
      if 1 ≤ mo ∧ mo ≤ 12 ∧ 1 ≤ da ∧ da ≤ 31 ∧ h ≤ 23 ∧ mi ≤ 59 ∧ sec ≤ 59 then
        .ok (((((y * 12 + (mo - 1)) * 31 + (da - 1)) * 24 + h) * 60 + mi) * 60 + sec)
      else .error .valueError
    | _, _ => .error .valueError
  | _ => .error .valueError

/-- Require a field to be a string: Python string concatenation with `None`
raises `TypeError`. -/
def strField (f : Field) : Except PyErr String :=
  match f with
  | some s => .ok s
  | none => .error .typeError

/-- The sort key of `process_threaded` (source line 331):
parse field 10 and field 11 of the first record of the batch,
joined by a single space, with format "%Y-%m-%d %H:%M:%S". Accessing `x[0]` raises `IndexError` on an empty batch;
concatenation raises `TypeError` on a `None` field; `strptime` raises
`ValueError` on an unparsable timestamp. -/
def batchKey (batch : Batch) : Except PyErr Nat := do
  let first ← getIdx batch 0
  let d ← getIdx first 10
  let ds ← strField d
  let t ← getIdx first 11
  let ts ← strField t
  parseTimestamp (ds ++ " " ++ ts)

/-- Comparison of key-decorated batches by their timestamp key. -/
def keyLe (a b : Nat × Batch) : Prop :=
  a.1 ≤ b.1

instance : DecidableRel keyLe := fun a b => Nat.decLe a.1 b.1

instance : IsTotal (Nat × Batch) keyLe := ⟨fun a b => Nat.le_total a.1 b.1⟩

instance : IsTrans (Nat × Batch) keyLe := ⟨fun _ _ _ h1 h2 => Nat.le_trans h1 h2⟩

/-- Key computation of the sort of source line 331: the CPython `list.sort`
first computes the key of every element in list order, so the first
unparsable or missing timestamp raises there. -/
def keyBatches : List Batch → Except PyErr (List (Nat × Batch))
  | [] => .ok []
  | b :: rest => do
    let k ← batchKey b
    let others ← keyBatches rest
    .ok ((k, b) :: others)

/-- The global ordering step of `process_threaded` (source lines 330-331):
the in-place `sort` with a key function. After the keys are computed the
list is sorted stably and ascending by key; the stable comparison sort is
modelled by insertion sort on the key-decorated list. -/
def sortBatches (data : List Batch) : Except PyErr (List Batch) := do
  let keyed ← keyBatches data
  .ok ((List.insertionSort keyLe keyed).map Prod.snd)

/-- Outcome of the tail of a run, after all workers have joined. `loggedExit`
is the shared error path of the source (`self.log(err)`, clear handlers,
`exit()`), reached exactly from the `except OSError` handlers; `uncaught e`
is a Python exception that no handler in the program catches. -/
inductive RunOutcome where
  | report (batches : List Batch)
  | loggedExit
  | uncaught (e : PyErr)
deriving DecidableEq

/-- The sequential tail of `process_threaded` after the join barrier (source
lines 330-334): the global sort, then the report. The sort statement of line
331 is enclosed in no `try` block, and every `except` clause in the program
catches only `OSError`, so an `IndexError`, `TypeError` or `ValueError`
raised while computing a sort key propagates uncaught and never reaches the
log-then-exit path. -/
def processThreadedTail (data : List Batch) : RunOutcome :=
  match sortBatches data with
  | .ok sorted => .report sorted
  | .error e => .uncaught e

/-- The file triple discovered for one station folder: the results of
the `get` calls on the file dictionary for keys "TPT", "TZT", "TXT"
(source lines 319-321), each `none` when the extension was not found. -/
structure StationFiles where
  tpt : Option String
  tzt : Option String
  txt : Option String
deriving DecidableEq, Repr

/-- Python truthiness of an optional path: `None` and the empty string are
falsy, every other string is truthy. -/
def truthy (o : Option String) : Bool :=
  match o with
  | none => false
  | some s => s != ""

/-- The spawn loop of `process_threaded` (source lines 318-325): for each
discovered station group, a worker thread is started exactly when
`tpt_file and tzt_file and txt_file` is truthy; other groups are passed
over with no exception raised (the function is total). -/
def spawnTriples (files : List (String × StationFiles)) :
    List (String × String × String) :=
  files.filterMap (fun p =>
    match p.2.tpt, p.2.tzt, p.2.txt with
    | some a, some b, some c =>
      if a != "" && b != "" && c != "" then some (a, b, c) else none
    | _, _, _ => none)

/-- A complete triple: all three extensions present. -/
def completeTriple (p : String × StationFiles) : Bool :=
  p.2.tpt.isSome && p.2.tzt.isSome && p.2.txt.isSome

/-- Extract the three paths of a complete triple. -/
def tripleOf (p : String × StationFiles) : String × String × String :=
  (p.2.tpt.getD "", p.2.tzt.getD "", p.2.txt.getD "")

/-- State of the admission limiter of `process_threaded` (source lines
300-316): `sem` is the internal counter of `Semaphore(max_threads)`,
`holding` the number of workers between `semaphore.acquire()` and the
`finally: semaphore.release()`, `waiting` the spawned workers that have not
yet acquired, `done` the finished workers. -/
structure SemState where
  sem : Nat
  holding : Nat
  waiting : Nat
  done : Nat
deriving DecidableEq, Repr

/-- Initial state: the semaphore holds its full capacity, no worker has
entered the admission section. -/
def semInit (workers cap : Nat) : SemState :=
  ⟨cap, 0, workers, 0⟩

/-- Interleaving steps of the worker pool: `acquire` admits a waiting worker
when the semaphore counter is positive (a `Semaphore.acquire` on a zero
counter blocks, so no step exists for it); `release` is the `finally` clause
of a worker leaving the admission section. -/
inductive SemStep : SemState → SemState → Prop where
  | acquire (s : SemState) (hs : 0 < s.sem) (hw : 0 < s.waiting) :
      SemStep s ⟨s.sem - 1, s.holding + 1, s.waiting - 1, s.done⟩
  | release (s : SemState) (hh : 0 < s.holding) :
      SemStep s ⟨s.sem + 1, s.holding - 1, s.waiting, s.done + 1⟩

/-- States reachable by any interleaving of a run with `workers` spawned
threads and limiter capacity `cap`. -/
def SemReachable (workers cap : Nat) (s : SemState) : Prop :=
  Relation.ReflTransGen SemStep (semInit workers cap) s

/-- The default `max_threads=16` of `process_threaded` (source line 286). -/
def defaultMaxThreads : Nat := 16

/-! ### Heap model of `merge_data`

To state that `merge_data` mutates no input row object and that every merged
record is a freshly allocated list, the same source lines 168-175 are
embedded once more against an explicit object heap: row objects live in a
heap (address = position, allocation appends), the three arguments are the
sequences of addresses held by the Python argument lists, and the code under
scrutiny only ever reads existing objects and allocates the merged records.
The source loop never assigns to its argument lists or to any element of a
row, which this embedding makes provable: the heap after the call agrees
with the heap before it on every pre-existing address, and all returned
addresses are fresh. -/

/-- An object address in the heap of row objects. -/
abbrev Addr := Nat

/-- The heap of row objects: address = position, allocation appends. -/
abbrev Heap := List Row

/-- Dereference an address. -/
def readRow (h : Heap) (a : Addr) : Except PyErr Row :=
  match h.get? a with
  | some r => .ok r
  | none => .error .indexError

/-- The generator scan of source lines 171-172 over a list of row addresses:
read each row in order, stop at the first whose `row[:4]` equals the key. -/
def findRowH (h : Heap) (key : Row) : List Addr → Except PyErr (Option Row)
  | [] => .ok none
  | a :: rest => do
    let r ← readRow h a
    if r.take 4 == key then .ok (some r) else findRowH h key rest

/-- Heap version of `selectRow`: the eager default `[None] * len(rows[0])`
reads `rows[0]` first, then the scan runs. -/
def selectRowH (h : Heap) (rows : List Addr) (key : Row) : Except PyErr Row := do
  let firstA ← getIdx rows 0
  let first ← readRow h firstA
  let found ← findRowH h key rows
  .ok (found.getD (List.replicate first.length (none : Field)))

/-- Heap version of one `merge_data` iteration: all operations on the
selected rows are reads and fresh slices; the assembled record is a new
list. -/
def mergeRowH (h : Heap) (tzt txt : List Addr) (tptA : Addr) : Except PyErr Row := do
  let tpt_row ← readRow h tptA
  let station_info := tpt_row.take 4
  let tzt_row ← selectRowH h tzt station_info
  let txt_row ← selectRowH h txt station_info
  let z6 ← getIdx tzt_row 6
  let x4 ← getIdx txt_row 4
  .ok (station_info ++ [z6] ++ (tpt_row.drop 4).take 2 ++
    (tzt_row.drop 4).take 2 ++ [x4] ++ tpt_row.drop 6)

/-- Heap version of `merge_data`: each merged record is allocated at the end
of the heap and its address appended to the result list. -/
def merge_dataH (h : Heap) (tzt txt : List Addr) :
    List Addr → Except PyErr (Heap × List Addr)
  | [] => .ok (h, [])
  | a :: rest => do
    let merged ← mergeRowH h tzt txt a
    let (h2, res) ← merge_dataH (h ++ [merged]) tzt txt rest
    .ok (h2, h.length :: res)

/-! ### Concrete fixtures for counterexamples and witnesses -/

/-- Angle-type export fixture: header declares `total_rounds = 1` and
`rows_per_round = 1`, instrument height 1.5; the body (after the two header
rows and the trailing summary row) holds three data rows and no separator
rows. -/
def angleEx : List (List String) :=
  [["S", "1", "1", "1.5"],
   ["h", "D=2024-01-01", "T=00:00:00"],
   ["a", "b"], ["c", "d"], ["e", "f"],
   ["end", "x"]]

/-- Angle row fixture with key [S1, 1.5, 1, T1]. -/
def tptEx : Row := [some "S1", some "1.5", some "1", some "T1", some "L", some "R",
  some "rep", some "2024-01-01", some "10:00:00"]

/-- Zenith row fixture with the same key as `tptEx`. -/
def tztEx : Row := [some "S1", some "1.5", some "1", some "T1", some "ZL", some "ZR",
  some "TH", some "d", some "t"]

/-- Distance row fixture with the same key as `tptEx`. -/
def txtEx : Row := [some "S1", some "1.5", some "1", some "T1", some "3.14", some "d", some "t"]

/-- Zenith row fixture with a key that matches no angle row fixture. -/
def tztOther : Row := [some "S2", some "1.5", some "1", some "T1", some "ZL", some "ZR",
  some "TH", some "d", some "t"]

/-- Distance row fixture with a key that matches no angle row fixture. -/
def txtOther : Row := [some "S2", some "1.5", some "1", some "T1", some "9.99", some "d", some "t"]

/-- The merged record produced for `tptEx`, `tztEx`, `txtEx`. -/
def mergedEx : Row := [some "S1", some "1.5", some "1", some "T1", some "TH", some "L",
  some "R", some "ZL", some "ZR", some "3.14", some "rep", some "2024-01-01", some "10:00:00"]

/-- The header parsed from `angleEx`: declared rounds 1, declared
rows-per-round 1, so the loop stride is 2. -/
def angleExHd : AngleHeader := ⟨["S", "1.5"], 1, 2, ["2024-01-01", "00:00:00"]⟩

/-- The output of `processing_angle` on `angleEx`: all three body rows come
back; the first two (the capacity is `1 * (1 + 1) = 2`) are prefixed with
round 1, the third is returned untouched. -/
def angleExOut : List (List String) :=
  [["S", "1.5", "1", "a", "b", "2024-01-01", "00:00:00"],
   ["S", "1.5", "1", "c", "d", "2024-01-01", "00:00:00"],
   ["e", "f"]]

/-- A record with given date and time strings in fields 10 and 11. -/
def recAt (d t : String) : Row :=
  List.replicate 10 (some "z") ++ [some d, some t]

/-- Station batch fixtures with first-record timestamps out of order. -/
def batchEx1 : Batch := [recAt "2024-01-02" "10:00:00"]

/-- Second station batch fixture (earliest timestamp). -/
def batchEx2 : Batch := [recAt "2024-01-01" "09:00:00"]

/-- Third station batch fixture (latest timestamp). -/
def batchEx3 : Batch := [recAt "2024-01-03" "08:00:00"]

/-- A record whose fields 10 and 11 do not parse as a timestamp. -/
def recBad : Row :=
  List.replicate 10 (some "z") ++ [some "2024-13-99", some "aa:bb:cc"]

/-- Discovered station groups: one missing the TZT file, one complete. -/
def filesEx : List (String × StationFiles) :=
  [("st1", ⟨some "p.TPT", none, some "p.TXT"⟩),
   ("st2", ⟨some "q.TPT", some "q.TZT", some "q.TXT"⟩)]

/-- A heap of three row objects (angle, zenith, distance) for the heap model
of `merge_data`. -/
def heapEx : Heap := [tptEx, tztEx, txtEx]

/-! ### Shared lemmas -/

/-- Inversion of a successful `Except` bind. -/
theorem bind_ok_elim {α β : Type} {x : Except PyErr α} {f : α → Except PyErr β} {b : β}
    (h : (x >>= f) = .ok b) : ∃ a, x = .ok a ∧ f a = .ok b := by
  cases x with
  | error e => simp [Bind.bind, Except.bind] at h
  | ok a => exact ⟨a, rfl, by simpa [Bind.bind, Except.bind] using h⟩

/-- `getIdx` succeeds exactly on in-range indices, with the list entry. -/
theorem getIdx_ok {α : Type} {l : List α} {i : Nat} {v : α} :
    getIdx l i = .ok v ↔ l.get? i = some v := by
  unfold getIdx
  cases l.get? i <;> simp

/-- A non-empty row list makes `selectRow` total. -/
theorem selectRow_ok_of_ne_nil {rows : List Row} (key : Row) (h : rows ≠ []) :
    ∃ r, selectRow rows key = .ok r := by
  cases rows with
  | nil => exact absurd rfl h
  | cons f rest =>
    exact ⟨(((f :: rest).find? (keyMatch key)).getD (List.replicate f.length none)), rfl⟩

/-- Inversion of a successful `selectRow`: either the first positional match
was returned, or there was no match and the result is the all-`None`
placeholder sized by the first row. -/
theorem selectRow_ok_elim {rows : List Row} {key r : Row}
    (h : selectRow rows key = .ok r) :
    rows.find? (keyMatch key) = some r ∨
      (rows.find? (keyMatch key) = none ∧
        ∃ f rest, rows = f :: rest ∧ r = List.replicate f.length (none : Field)) := by
  cases rows with
  | nil => simp [selectRow, getIdx, Bind.bind, Except.bind] at h
  | cons f rest =>
    have h2 : Except.ok (((f :: rest).find? (keyMatch key)).getD
        (List.replicate f.length (none : Field))) = Except.ok r := h
    cases hf : (f :: rest).find? (keyMatch key) with
    | none =>
      right
      refine ⟨rfl, f, rest, rfl, ?_⟩
      rw [hf] at h2
      exact (Except.ok.injEq _ _).mp h2.symm
    | some fr =>
      left
      rw [hf] at h2
      simpa using h2

/-- An empty row list makes `selectRow` raise `IndexError` (the eager
default argument dereferences `rows[0]`). -/
theorem selectRow_nil (key : Row) : selectRow [] key = .error .indexError := rfl

/-- Inversion of a successful `mergeRow`: both selections succeeded, the
selected zenith row had a field 6 and the selected distance row a field 4,
and the record is the assembly of source line 173. -/
theorem mergeRow_ok_elim {tzt txt : List Row} {row m : Row}
    (h : mergeRow tzt txt row = .ok m) :
    ∃ zr xr z6 x4,
      selectRow tzt (row.take 4) = .ok zr ∧ selectRow txt (row.take 4) = .ok xr ∧
      zr.get? 6 = some z6 ∧ xr.get? 4 = some x4 ∧
      m = row.take 4 ++ [z6] ++ (row.drop 4).take 2 ++
        (zr.drop 4).take 2 ++ [x4] ++ row.drop 6 := by
  unfold mergeRow at h
  obtain ⟨zr, hz, h⟩ := bind_ok_elim h
  obtain ⟨xr, hx, h⟩ := bind_ok_elim h
  obtain ⟨z6, hz6, h⟩ := bind_ok_elim h
  obtain ⟨x4, hx4, h⟩ := bind_ok_elim h
  exact ⟨zr, xr, z6, x4, hz, hx, getIdx_ok.mp hz6, getIdx_ok.mp hx4,
    ((Except.ok.injEq _ _).mp h).symm⟩

/-- Inversion of a successful `merge_data`: one record per angle row, each
produced by `mergeRow` on the corresponding angle row. -/
theorem merge_data_ok_elim {tpt tzt txt res : List Row}
    (h : merge_data tpt tzt txt = .ok res) :
    res.length = tpt.length ∧
      ∀ i (hi : i < tpt.length), ∃ m,
        mergeRow tzt txt (tpt.get ⟨i, hi⟩) = .ok m ∧ res.get? i = some m := by
  induction tpt generalizing res with
  | nil =>
    obtain rfl : ([] : List Row) = res := (Except.ok.injEq _ _).mp h
    exact ⟨rfl, fun i hi => absurd hi (Nat.not_lt_zero i)⟩
  | cons head rest ih =>
    unfold merge_data at h
    obtain ⟨m, hm, h⟩ := bind_ok_elim h
    obtain ⟨others, ho, h⟩ := bind_ok_elim h
    obtain rfl : m :: others = res := (Except.ok.injEq _ _).mp h
    obtain ⟨hlen, hidx⟩ := ih ho
    refine ⟨by simp [hlen], fun i hi => ?_⟩
    cases i with
    | zero => exact ⟨m, hm, rfl⟩
    | succ n =>
      obtain ⟨m2, hm2, hres2⟩ := hidx n (Nat.lt_of_succ_lt_succ hi)
      exact ⟨m2, hm2, hres2⟩

/-- Inversion of a successful `keyBatches`: the decorated list projects back
to the input, and every decoration is the parsed key of its batch. -/
theorem keyBatches_ok_elim {data : List Batch} {keyed : List (Nat × Batch)}
    (h : keyBatches data = .ok keyed) :
    keyed.map Prod.snd = data ∧ ∀ p ∈ keyed, batchKey p.2 = .ok p.1 := by
  induction data generalizing keyed with
  | nil =>
    obtain rfl : ([] : List (Nat × Batch)) = keyed := (Except.ok.injEq _ _).mp h
    exact ⟨rfl, fun p hp => absurd hp (List.not_mem_nil p)⟩
  | cons b rest ih =>
    unfold keyBatches at h
    obtain ⟨k, hk, h⟩ := bind_ok_elim h
    obtain ⟨others, ho, h⟩ := bind_ok_elim h
    obtain rfl : (k, b) :: others = keyed := (Except.ok.injEq _ _).mp h
    obtain ⟨hmap, hall⟩ := ih ho
    refine ⟨by simp [hmap], fun p hp => ?_⟩
    rcases List.mem_cons.mp hp with rfl | hp2
    · exact hk
    · exact hall p hp2

/-! ### Claim C1 -/

/-- Claim C1, counterexample to the claim as stated: `angleEx` declares
`total_rounds = 1` and `rows_per_round = 1` and its body holds `M = 3` data
rows, yet `processing_angle` returns 3 rows, not `min (1 * 1) 3 = 1`, and
the row beyond the declared capacity (`["e", "f"]`) appears, unprefixed, in
the output. -/
theorem processing_angle_count_cex :
    processing_angle angleEx = .ok angleExOut ∧
    (angleBody angleEx).length = 3 ∧
    angleExOut.length ≠ min (1 * 1) 3 ∧
    angleExOut.get? 2 = some ["e", "f"] :=
  ⟨rfl, rfl, by decide, rfl⟩

/-- Claim C1 (amended): `processing_angle` returns every one of the `M` body
rows. The code takes `rows = declared_rows_per_round + 1` as the round
stride, so row `j` is prefixed with `[station_id, instrument_height,
round_number]` (with the correct 1-based round number `j / rows + 1`) and
suffixed with `[date, time]` exactly when `j < total_rounds * rows`; rows at
index `total_rounds * rows` and beyond are returned unchanged, not
dropped. -/
theorem processing_angle_round_prefixed {data out : List (List String)}
    {hd : AngleHeader}
    (hhd : parseAngleHeader data = .ok hd)
    (hout : processing_angle data = .ok out) :
    out.length = (angleBody data).length ∧
    (∀ j (hj : j < (angleBody data).length), j < angleCapacity hd →
      out.get? j = some (hd.station_info ++ [toString (j / hd.rows.toNat + 1)] ++
        (angleBody data).get ⟨j, hj⟩ ++ hd.date_info)) ∧
    (∀ j (hj : j < (angleBody data).length), angleCapacity hd ≤ j →
      out.get? j = some ((angleBody data).get ⟨j, hj⟩)) := by
  have hout2 : out = (angleBody data).mapIdx (fun j r =>
      if j < angleCapacity hd then
        hd.station_info ++ [toString (j / hd.rows.toNat + 1)] ++ r ++ hd.date_info
      else r) := by
    unfold processing_angle at hout
    rw [hhd] at hout
    exact ((Except.ok.injEq _ _).mp hout).symm
  subst hout2
  refine ⟨List.length_mapIdx, ?_, ?_⟩
  · intro j hj hcap
    rw [List.get?_eq_getElem?,
      List.getElem?_eq_getElem (by simpa [List.length_mapIdx] using hj),
      List.getElem_mapIdx, if_pos hcap]
    simp [List.get_eq_getElem]
  · intro j hj hcap
    rw [List.get?_eq_getElem?,
      List.getElem?_eq_getElem (by simpa [List.length_mapIdx] using hj),
      List.getElem_mapIdx, if_neg (Nat.not_lt.mpr hcap)]
    simp [List.get_eq_getElem]

/-- Witness for `processing_angle_round_prefixed` on the `angleEx` export. -/
theorem processing_angle_round_prefixed_witness :
    parseAngleHeader angleEx = .ok angleExHd ∧
    processing_angle angleEx = .ok angleExOut ∧
    (angleExOut.length = (angleBody angleEx).length ∧
     (∀ j (hj : j < (angleBody angleEx).length), j < angleCapacity angleExHd →
        angleExOut.get? j = some (angleExHd.station_info ++
          [toString (j / angleExHd.rows.toNat + 1)] ++ (angleBody angleEx).get ⟨j, hj⟩ ++
          angleExHd.date_info)) ∧
     (∀ j (hj : j < (angleBody angleEx).length), angleCapacity angleExHd ≤ j →
        angleExOut.get? j = some ((angleBody angleEx).get ⟨j, hj⟩))) :=
  have h1 : parseAngleHeader angleEx = .ok angleExHd := rfl
  have h2 : processing_angle angleEx = .ok angleExOut := rfl
  ⟨h1, h2, processing_angle_round_prefixed h1 h2⟩

/-! ### Claim C2 -/

/-- Claim C2, counterexample to the claim as stated: `merge_data` does not
always return a result — with a non-empty angle list and an empty zenith
list the eager placeholder `[None] * len(tzt_data[0])` raises `IndexError`. -/
theorem merge_data_total_cex :
    merge_data [[some "a", some "b", some "c", some "d"]] []
      [[some "x", some "y", some "z", some "w", some "v"]] = .error .indexError := rfl

/-- Claim C2 (amended): with a non-empty angle list, an empty zenith or
distance list raises `IndexError`; whenever `merge_data` does return, an
angle row with no zenith match gets `None` for the target-height substitute
and both zenith-angle fields, and an angle row with no distance match gets
`None` for the slope-distance field — a gap never fails the merge. -/
theorem merge_data_graceful_gaps (tpt tzt txt : List Row) :
    (tpt ≠ [] → tzt = [] ∨ txt = [] → merge_data tpt tzt txt = .error .indexError) ∧
    (∀ res, merge_data tpt tzt txt = .ok res → ∀ i (hi : i < tpt.length),
      (tzt.find? (keyMatch ((tpt.get ⟨i, hi⟩).take 4)) = none →
        ∃ v, res.get? i = some ((tpt.get ⟨i, hi⟩).take 4 ++ [(none : Field)] ++
          ((tpt.get ⟨i, hi⟩).drop 4).take 2 ++ [none, none] ++ [v] ++
          (tpt.get ⟨i, hi⟩).drop 6)) ∧
      (txt.find? (keyMatch ((tpt.get ⟨i, hi⟩).take 4)) = none →
        ∃ z6 zp, zp.length = 2 ∧ res.get? i = some ((tpt.get ⟨i, hi⟩).take 4 ++ [z6] ++
          ((tpt.get ⟨i, hi⟩).drop 4).take 2 ++ zp ++ [(none : Field)] ++
          (tpt.get ⟨i, hi⟩).drop 6))) := by
  constructor
  · intro hne hempty
    obtain ⟨t, rest, rfl⟩ : ∃ t rest, tpt = t :: rest := by
      cases tpt with
      | nil => exact absurd rfl hne
      | cons t rest => exact ⟨t, rest, rfl⟩
    have hrow : mergeRow tzt txt t = .error .indexError := by
      rcases hempty with rfl | rfl
      · rfl
      · cases tzt with
        | nil => rfl
        | cons f frest =>
          obtain ⟨z, hz⟩ := selectRow_ok_of_ne_nil (t.take 4) (List.cons_ne_nil f frest)
          simp [mergeRow, hz, selectRow_nil, Bind.bind, Except.bind]
    show (mergeRow tzt txt t >>= fun merged =>
      merge_data rest tzt txt >>= fun others => .ok (merged :: others)) = _
    rw [hrow]
    rfl
  · intro res h i hi
    obtain ⟨-, hidx⟩ := merge_data_ok_elim h
    obtain ⟨m, hm, hres⟩ := hidx i hi
    obtain ⟨zr, xr, z6, x4, hzs, hxs, hz6, hx4, rfl⟩ := mergeRow_ok_elim hm
    have hzlen : 6 < zr.length := by
      rw [List.get?_eq_getElem?] at hz6
      exact (List.getElem?_eq_some_iff.mp hz6).1
    constructor
    · intro hznone
      rcases selectRow_ok_elim hzs with hfound | ⟨-, f, frest, -, rfl⟩
      · rw [hznone] at hfound
        exact absurd hfound (Option.noConfusion)
      · -- the selected zenith row is the placeholder of Nones
        have hflen : 6 < f.length := by
          simpa using hzlen
        have hz6val : z6 = none := by
          rw [List.get?_eq_getElem?, List.getElem?_replicate] at hz6
          simp [hflen] at hz6
          exact hz6.symm
        have hslice : ((List.replicate f.length (none : Field)).drop 4).take 2
            = [none, none] := by
          rw [List.drop_replicate, List.take_replicate]
          have : min 2 (f.length - 4) = 2 := by omega
          rw [this]
          rfl
        subst hz6val
        exact ⟨x4, by rw [hres, hslice]⟩
    · intro hxnone
      rcases selectRow_ok_elim hxs with hfound | ⟨-, g, grest, -, rfl⟩
      · rw [hxnone] at hfound
        exact absurd hfound (Option.noConfusion)
      · have hglen : 4 < g.length := by
          rw [List.get?_eq_getElem?] at hx4
          have := (List.getElem?_eq_some_iff.mp hx4).1
          simpa using this
        have hx4val : x4 = none := by
          rw [List.get?_eq_getElem?, List.getElem?_replicate] at hx4
          simp [hglen] at hx4
          exact hx4.symm
        refine ⟨z6, (zr.drop 4).take 2, ?_, ?_⟩
        · rw [List.length_take, List.length_drop]
          omega
        · rw [hres, hx4val]

/-- Witness for `merge_data_graceful_gaps`: an angle row with no zenith and
no distance match merges into a record with `None` placeholders. -/
theorem merge_data_graceful_gaps_witness :
    merge_data [tptEx] [tztOther] [txtOther] =
      .ok [[some "S1", some "1.5", some "1", some "T1", none, some "L", some "R",
        none, none, none, some "rep", some "2024-01-01", some "10:00:00"]] ∧
    List.find? (keyMatch (tptEx.take 4)) [tztOther] = none ∧
    List.find? (keyMatch (tptEx.take 4)) [txtOther] = none ∧
    (∃ v, ([[some "S1", some "1.5", some "1", some "T1", none, some "L", some "R",
        none, none, none, some "rep", some "2024-01-01", some "10:00:00"]] : List Row).get? 0
      = some (tptEx.take 4 ++ [(none : Field)] ++ (tptEx.drop 4).take 2 ++
        [none, none] ++ [v] ++ tptEx.drop 6)) :=
  have h : merge_data [tptEx] [tztOther] [txtOther] =
      .ok [[some "S1", some "1.5", some "1", some "T1", none, some "L", some "R",
        none, none, none, some "rep", some "2024-01-01", some "10:00:00"]] := rfl
  ⟨h, by decide, by decide,
    (((merge_data_graceful_gaps [tptEx] [tztOther] [txtOther]).2 _ h 0 (by decide)).1
      (by decide))⟩

/-! ### Claim C3 -/

/-- Claim C3, counterexample to the claim as stated: with a non-empty angle
list and an empty distance list, `merge_data` raises `IndexError` while
evaluating the eager placeholder `[None] * len(txt_data[0])`, so no list of
any length is returned. -/
theorem merge_data_length_cex :
    merge_data [[some "k1", some "k2", some "k3", some "k4", some "a"]]
      [[some "q1", some "q2", some "q3", some "q4", some "b", some "c", some "d"]] []
      = .error .indexError := rfl

/-- Claim C3 (amended): whenever `merge_data` returns a list, that list has
exactly one merged record per angle row — the same length as `tpt_data`;
zenith and distance rows never contribute records of their own. -/
theorem merge_data_length {tpt tzt txt res : List Row}
    (h : merge_data tpt tzt txt = .ok res) : res.length = tpt.length :=
  (merge_data_ok_elim h).1

/-- Witness for `merge_data_length` at a concrete input. -/
theorem merge_data_length_witness :
    merge_data [tptEx] [tztEx] [txtEx] = .ok [mergedEx] ∧
    ([mergedEx] : List Row).length = ([tptEx] : List Row).length :=
  have h : merge_data [tptEx] [tztEx] [txtEx] = .ok [mergedEx] := rfl
  ⟨h, merge_data_length h⟩

/-! ### Claim C4 -/

/-- Claim C4: for an angle row whose first positional matches in the zenith
and distance lists are `zr` and `xr`, the merged record at the same index is
`key ++ [zr[6]] ++ tpt_row[4:6] ++ zr[4:6] ++ [xr[4]] ++ tpt_row[6:]`. -/
theorem merge_data_record_assembly {tpt tzt txt res : List Row}
    (h : merge_data tpt tzt txt = .ok res) (i : Nat) (hi : i < tpt.length)
    {zr xr : Row}
    (hz : tzt.find? (keyMatch ((tpt.get ⟨i, hi⟩).take 4)) = some zr)
    (hx : txt.find? (keyMatch ((tpt.get ⟨i, hi⟩).take 4)) = some xr) :
    ∃ z6 x4, zr.get? 6 = some z6 ∧ xr.get? 4 = some x4 ∧
      res.get? i = some ((tpt.get ⟨i, hi⟩).take 4 ++ [z6] ++
        ((tpt.get ⟨i, hi⟩).drop 4).take 2 ++ (zr.drop 4).take 2 ++ [x4] ++
        (tpt.get ⟨i, hi⟩).drop 6) := by
  obtain ⟨-, hidx⟩ := merge_data_ok_elim h
  obtain ⟨m, hm, hres⟩ := hidx i hi
  obtain ⟨zr2, xr2, z6, x4, hzs, hxs, hz6, hx4, rfl⟩ := mergeRow_ok_elim hm
  obtain rfl : zr2 = zr := by
    rcases selectRow_ok_elim hzs with hfound | ⟨hnone, -⟩
    · rw [hz] at hfound
      exact ((Option.some.injEq _ _).mp hfound).symm
    · rw [hz] at hnone
      exact absurd hnone (Option.some_ne_none zr)
  obtain rfl : xr2 = xr := by
    rcases selectRow_ok_elim hxs with hfound | ⟨hnone, -⟩
    · rw [hx] at hfound
      exact ((Option.some.injEq _ _).mp hfound).symm
    · rw [hx] at hnone
      exact absurd hnone (Option.some_ne_none xr)
  exact ⟨z6, x4, hz6, hx4, hres⟩

/-- Witness for `merge_data_record_assembly` at the shared-key fixture. -/
theorem merge_data_record_assembly_witness :
    merge_data [tptEx] [tztEx] [txtEx] = .ok [mergedEx] ∧
    List.find? (keyMatch (tptEx.take 4)) [tztEx] = some tztEx ∧
    List.find? (keyMatch (tptEx.take 4)) [txtEx] = some txtEx ∧
    (∃ z6 x4, tztEx.get? 6 = some z6 ∧ txtEx.get? 4 = some x4 ∧
      ([mergedEx] : List Row).get? 0
        = some (tptEx.take 4 ++ [z6] ++ (tptEx.drop 4).take 2 ++ (tztEx.drop 4).take 2 ++
          [x4] ++ tptEx.drop 6)) :=
  have h : merge_data [tptEx] [tztEx] [txtEx] = .ok [mergedEx] := rfl
  ⟨h, by decide, by decide,
    merge_data_record_assembly h 0 (by decide) (by decide) (by decide)⟩

/-! ### Claim C5 -/

/-- Claim C5: when the global ordering step succeeds, its output is a
permutation of the collected batches, sorted ascending by the timestamp
parsed (format "%Y-%m-%d %H:%M:%S") from fields 10 and 11 of the first
record of each batch, joined by a single space. -/
theorem sortBatches_perm_sorted {data out : List Batch}
    (h : sortBatches data = .ok out) :
    out.Perm data ∧
    out.Pairwise (fun b1 b2 => ∀ k1 k2,
      batchKey b1 = .ok k1 → batchKey b2 = .ok k2 → k1 ≤ k2) := by
  unfold sortBatches at h
  obtain ⟨keyed, hk, h⟩ := bind_ok_elim h
  obtain rfl : (List.insertionSort keyLe keyed).map Prod.snd = out :=
    (Except.ok.injEq _ _).mp h
  obtain ⟨hmap, hall⟩ := keyBatches_ok_elim hk
  constructor
  · have hp := (List.perm_insertionSort keyLe keyed).map Prod.snd
    rwa [hmap] at hp
  · have hs : List.Pairwise keyLe (List.insertionSort keyLe keyed) :=
      List.sorted_insertionSort keyLe keyed
    have hmem : ∀ p ∈ List.insertionSort keyLe keyed, batchKey p.2 = .ok p.1 :=
      fun p hp => hall p ((List.perm_insertionSort keyLe keyed).mem_iff.mp hp)
    rw [List.pairwise_map]
    refine List.Pairwise.imp_of_mem ?_ hs
    intro a b ha hb hle k1 k2 hk1 hk2
    rw [hmem a ha] at hk1
    rw [hmem b hb] at hk2
    obtain rfl : a.1 = k1 := (Except.ok.injEq _ _).mp hk1
    obtain rfl : b.1 = k2 := (Except.ok.injEq _ _).mp hk2
    exact hle

/-- Witness for `sortBatches_perm_sorted` at three out-of-order batches:
the run reorders them by first-record date. -/
theorem sortBatches_perm_sorted_witness :
    sortBatches [batchEx1, batchEx2, batchEx3] = .ok [batchEx2, batchEx1, batchEx3] ∧
    (([batchEx2, batchEx1, batchEx3] : List Batch).Perm [batchEx1, batchEx2, batchEx3] ∧
     ([batchEx2, batchEx1, batchEx3] : List Batch).Pairwise (fun b1 b2 => ∀ k1 k2,
       batchKey b1 = .ok k1 → batchKey b2 = .ok k2 → k1 ≤ k2)) :=
  have h : sortBatches [batchEx1, batchEx2, batchEx3] =
      .ok [batchEx2, batchEx1, batchEx3] := rfl
  ⟨h, sortBatches_perm_sorted h⟩

/-! ### Claim C6 -/

/-- Claim C6, counterexample to the claim as stated: an unparsable
first-record timestamp during the global sort does not reach the
log-then-exit path — it surfaces as an uncaught `ValueError` (the only
`except` clauses in the program catch `OSError`). -/
theorem sort_error_not_logged_cex :
    processThreadedTail [[recBad]] = .uncaught .valueError ∧
    processThreadedTail [[recBad]] ≠ .loggedExit :=
  ⟨rfl, fun hc => RunOutcome.noConfusion hc⟩

/-- Claim C6 (amended): when the global sort fails on a batch key, the run
terminates with that exception uncaught: it emits no report, and the
failure is not routed through the shared log-then-exit path (which only
`except OSError` clauses reach). -/
theorem sort_error_uncaught {data : List Batch} {e : PyErr}
    (h : sortBatches data = .error e) :
    processThreadedTail data = .uncaught e ∧
    (∀ bs, processThreadedTail data ≠ .report bs) ∧
    processThreadedTail data ≠ .loggedExit := by
  unfold processThreadedTail
  rw [h]
  exact ⟨rfl, fun bs hc => RunOutcome.noConfusion hc, fun hc => RunOutcome.noConfusion hc⟩

/-- Witness for `sort_error_uncaught` at a batch with a malformed
timestamp. -/
theorem sort_error_uncaught_witness :
    sortBatches [[recBad]] = .error .valueError ∧
    (processThreadedTail [[recBad]] = .uncaught .valueError ∧
     (∀ bs, processThreadedTail [[recBad]] ≠ .report bs) ∧
     processThreadedTail [[recBad]] ≠ .loggedExit) :=
  have h : sortBatches [[recBad]] = .error .valueError := rfl
  ⟨h, sort_error_uncaught h⟩

/-! ### Claim C7 -/

/-- Claim C7: a worker is spawned exactly for the station groups whose three
files are all present (no group ever raises — `spawnTriples` is total by
construction): the spawned triples are precisely the complete groups, in
discovery order. The hypothesis rules out present-but-empty path strings,
which discovery never produces. -/
theorem spawnTriples_complete_filter {files : List (String × StationFiles)}
    (hwf : ∀ p ∈ files, p.2.tpt ≠ some "" ∧ p.2.tzt ≠ some "" ∧ p.2.txt ≠ some "") :
    spawnTriples files = (files.filter completeTriple).map tripleOf := by
  induction files with
  | nil => rfl
  | cons p rest ih =>
    obtain ⟨h1, h2, h3⟩ := hwf p (List.mem_cons_self p rest)
    have hrest := ih (fun q hq => hwf q (List.mem_cons_of_mem p hq))
    unfold spawnTriples at hrest ⊢
    rw [List.filterMap_cons, List.filter_cons]
    cases htpt : p.2.tpt with
    | none => simpa [completeTriple, htpt] using hrest
    | some a =>
      cases htzt : p.2.tzt with
      | none => simpa [completeTriple, htpt, htzt] using hrest
      | some b =>
        cases htxt : p.2.txt with
        | none => simpa [completeTriple, htpt, htzt, htxt] using hrest
        | some c =>
          have ha : a ≠ "" := fun hc => h1 (by rw [htpt, hc])
          have hb : b ≠ "" := fun hc => h2 (by rw [htzt, hc])
          have hc : c ≠ "" := fun hcq => h3 (by rw [htxt, hcq])
          simpa [completeTriple, htpt, htzt, htxt, tripleOf, ha, hb, hc] using hrest

/-- Witness for `spawnTriples_complete_filter` on `filesEx`: the group
missing its TZT file is skipped, the complete group is spawned. -/
theorem spawnTriples_complete_filter_witness :
    (∀ p ∈ filesEx, p.2.tpt ≠ some "" ∧ p.2.tzt ≠ some "" ∧ p.2.txt ≠ some "") ∧
    spawnTriples filesEx = (filesEx.filter completeTriple).map tripleOf ∧
    spawnTriples filesEx = [("q.TPT", "q.TZT", "q.TXT")] :=
  ⟨by decide, spawnTriples_complete_filter (by decide), rfl⟩

/-! ### Claim C8 -/

/-- Invariant of the limiter: the workers inside the admission section and
the semaphore counter always sum to the capacity. -/
theorem semReachable_invariant {w c : Nat} {s : SemState}
    (h : SemReachable w c s) : s.holding + s.sem = c := by
  induction h with
  | refl => simp [semInit]
  | tail _ hstep ih =>
    cases hstep with
    | acquire hs hw =>
      dsimp only at ih ⊢
      omega
    | release hh =>
      dsimp only at ih ⊢
      omega

/-- Claim C8: in every reachable interleaving of a run with limiter capacity
`cap`, at most `cap` workers hold the admission slot simultaneously. -/
theorem sem_holding_le_cap {w cap : Nat} {s : SemState}
    (h : SemReachable w cap s) : s.holding ≤ cap :=
  Nat.le.intro (semReachable_invariant h)

/-- Witness for `sem_holding_le_cap`: after one worker of three acquires the
slot under the default capacity 16, one worker holds the slot, within the
bound. -/
theorem sem_holding_le_cap_witness :
    SemReachable 3 defaultMaxThreads ⟨defaultMaxThreads - 1, 1, 2, 0⟩ ∧
    (⟨defaultMaxThreads - 1, 1, 2, 0⟩ : SemState).holding ≤ defaultMaxThreads :=
  have h : SemReachable 3 defaultMaxThreads ⟨defaultMaxThreads - 1, 1, 2, 0⟩ :=
    Relation.ReflTransGen.single
      (SemStep.acquire (semInit 3 defaultMaxThreads) (by decide) (by decide))
  ⟨h, sem_holding_le_cap h⟩

/-! ### Claim C9 -/

/-- Claim C9: an angle file with no data rows merges into an empty station
batch, and the global ordering step is undefined on any collection holding
an empty batch — computing its key dereferences the first record and raises
`IndexError`, so the run aborts with an uncaught error instead of emitting a
report. -/
theorem empty_batch_breaks_sort :
    processing_angle [["S", "1", "1", "1.5"], ["h", "D=2024-01-01", "T=00:00:00"],
      ["end", "x"]] = .ok [] ∧
    (∀ tzt txt : List Row, merge_data [] tzt txt = .ok []) ∧
    (∀ data : List Batch, [] ∈ data → ∀ out, sortBatches data ≠ .ok out) ∧
    processThreadedTail [[]] = .uncaught .indexError := by
  refine ⟨rfl, fun tzt txt => rfl, ?_, rfl⟩
  intro data hmem out hok
  unfold sortBatches at hok
  obtain ⟨keyed, hk, -⟩ := bind_ok_elim hok
  obtain ⟨hmap, hall⟩ := keyBatches_ok_elim hk
  rw [← hmap] at hmem
  obtain ⟨p, hp, hsnd⟩ := List.mem_map.mp hmem
  have hkey := hall p hp
  rw [hsnd] at hkey
  exact Except.noConfusion
    (show (Except.error PyErr.indexError : Except PyErr Nat) = .ok p.1 from hkey)

/-- Witness for `empty_batch_breaks_sort` at a concrete empty batch. -/
theorem empty_batch_breaks_sort_witness :
    merge_data [] [tztEx] [txtEx] = .ok [] ∧
    ([] : Batch) ∈ ([[]] : List Batch) ∧
    sortBatches [[]] ≠ .ok [] ∧
    processThreadedTail [[]] = .uncaught .indexError :=
  ⟨empty_batch_breaks_sort.2.1 [tztEx] [txtEx],
   List.mem_singleton.mpr rfl,
   empty_batch_breaks_sort.2.2.1 [[]] (List.mem_singleton.mpr rfl) [],
   empty_batch_breaks_sort.2.2.2⟩

/-! ### Claim C10 -/

/-- Claim C10: `merge_data` mutates nothing it was given and returns only
fresh records — in the heap embedding, every pre-existing row object is
unchanged after the call, and every address in the result list was
allocated by the call (it lies beyond the initial heap, so it is shared
with no input list). -/
theorem merge_dataH_frame {h : Heap} {tzt txt tpt : List Addr} {h2 : Heap}
    {res : List Addr}
    (hm : merge_dataH h tzt txt tpt = .ok (h2, res)) :
    (∀ a, a < h.length → h2.get? a = h.get? a) ∧ (∀ a ∈ res, h.length ≤ a) := by
  induction tpt generalizing h h2 res with
  | nil =>
    have hpair : ((h, []) : Heap × List Addr) = (h2, res) :=
      (Except.ok.injEq _ _).mp hm
    obtain ⟨rfl, rfl⟩ := Prod.mk.injEq .. |>.mp hpair
    exact ⟨fun a _ => rfl, fun a ha => absurd ha (List.not_mem_nil a)⟩
  | cons a0 rest ih =>
    unfold merge_dataH at hm
    obtain ⟨merged, hmg, hm⟩ := bind_ok_elim hm
    obtain ⟨pr, hpr, hm⟩ := bind_ok_elim hm
    obtain ⟨h3, r⟩ := pr
    have hpair : ((h3, h.length :: r) : Heap × List Addr) = (h2, res) :=
      (Except.ok.injEq _ _).mp hm
    obtain ⟨rfl, rfl⟩ := Prod.mk.injEq .. |>.mp hpair
    obtain ⟨ihframe, ihfresh⟩ := ih hpr
    constructor
    · intro a ha
      rw [ihframe a (by rw [List.length_append]; omega)]
      exact List.get?_append ha
    · intro a ha
      rcases List.mem_cons.mp ha with rfl | ha2
      · exact Nat.le_refl _
      · have hge := ihfresh a ha2
        rw [List.length_append] at hge
        omega

/-- Witness for `merge_dataH_frame`: merging one angle row against the
fixture heap leaves the three input rows in place and returns the one fresh
address. -/
theorem merge_dataH_frame_witness :
    merge_dataH heapEx [1] [2] [0] = .ok (heapEx ++ [mergedEx], [3]) ∧
    ((∀ a, a < heapEx.length → (heapEx ++ [mergedEx]).get? a = heapEx.get? a) ∧
     (∀ a ∈ ([3] : List Addr), heapEx.length ≤ a)) :=
  have h : merge_dataH heapEx [1] [2] [0] = .ok (heapEx ++ [mergedEx], [3]) := rfl
  ⟨h, merge_dataH_frame h⟩

end LeicaData
